import Mathlib

/-!
Verification development for the plotly-scientific-plots repository.

The repository's statistical summarizer `removeOutliers` (imported in
`plotly_plot_tools.py` from `misc_computational_tools`, whose source is not
part of this tree) is modelled from the specification, over exact rationals in
place of IEEE floats.  The dashboard helpers `startDashboard`,
`dashSubplot_from_figs` and the correlation-annotation loop of `corrPlot` are
embedded directly from the Python source, with side effects represented as
explicit effect lists and Python exceptions as `Option`/`Except` values.
-/

/-- A raw numeric observation: either a finite rational or one of the
non-finite IEEE values (NaN, plus or minus infinity), which the spec says must
be treated as absent data. -/
inductive NumVal where
  | fin (q : ℚ)
  | nan
  | posInf
  | negInf
deriving DecidableEq, Repr

/-- The finite-valued subset of a sample, in order. -/
def finiteVals (data : List NumVal) : List ℚ :=
  data.filterMap (fun v => match v with | NumVal.fin q => some q | _ => none)

/-- Arithmetic mean of a list of rationals (0 on the empty list; callers guard
against the empty case). -/
def mean (xs : List ℚ) : ℚ := xs.sum / (xs.length : ℚ)

/-- Ascending sort, as numpy's sort does before median/percentile extraction. -/
def sortQ (xs : List ℚ) : List ℚ := List.insertionSort (· ≤ ·) xs

/-- Median as numpy computes it: middle element of the sorted data for odd
length, average of the two middle elements for even length. -/
def median (xs : List ℚ) : ℚ :=
  let a := sortQ xs
  let n := a.length
  if n % 2 = 1 then a.getD (n / 2) 0
  else (a.getD (n / 2 - 1) 0 + a.getD (n / 2) 0) / 2

/-- Percentile with numpy's linear interpolation: for sorted data `a` of
length `n`, the `p`-th percentile sits at fractional index `p*(n-1)/100`. -/
def percentile (p : ℚ) (xs : List ℚ) : ℚ :=
  let a := sortQ xs
  let n := a.length
  let hq : ℚ := p * ((n : ℚ) - 1) / 100
  let i : ℕ := hq.floor.toNat
  if i + 1 < n then a.getD i 0 + (hq - (i : ℚ)) * (a.getD (i + 1) 0 - a.getD i 0)
  else a.getD (n - 1) 0

/-- Population variance (as numpy's std with ddof=0 uses). -/
def variance (xs : List ℚ) : ℚ :=
  ((xs.map (fun x => (x - mean xs) ^ 2)).sum) / (xs.length : ℚ)

/-- Rational floor square root: stands in for the float square root in the
standard-deviation computation.  Exact on squares; in particular
`ratSqrt 0 = 0`, which is all the zero-variance claims need. -/
def ratSqrt (q : ℚ) : ℚ :=
  if q ≤ 0 then 0 else ((Nat.sqrt (q.num.toNat * q.den) : ℕ) : ℚ) / (q.den : ℚ)

/-- Population standard deviation of a list of rationals. -/
def stddev (xs : List ℚ) : ℚ := ratSqrt (variance xs)

/-- Minimum of a list (0 on the empty list; callers guard the empty case). -/
def listMin : List ℚ → ℚ
  | [] => 0
  | x :: xs => xs.foldl min x

/-- Maximum of a list (0 on the empty list; callers guard the empty case). -/
def listMax : List ℚ → ℚ
  | [] => 0
  | x :: xs => xs.foldl max x

/-- Modelled from the spec: the widening step (`_extend_range` in
`plotly_misc`, not part of this tree) producing the "widened span" of an
interval, with the 0.05 fraction used at the `plot2Hists` call site. -/
def extendRange (lo hi : ℚ) : ℚ × ℚ :=
  (lo - (hi - lo) / 20, hi + (hi - lo) / 20)

/-- Location/spread statistics of the finite data; `none` is the NaN sentinel
the spec prescribes for an empty or all-non-finite sample. -/
structure SummaryStats where
  mean : Option ℚ
  med : Option ℚ
  std : Option ℚ
deriving DecidableEq, Repr

/-- The summarizer's fixed-shape output record: clipping threshold `adj`
(`none` is the no-op sentinel when removal is not requested), the
inlier/outlier partition, the axis range and the statistics. -/
structure Summary where
  adj : Option (ℚ × ℚ)
  corr_data : List ℚ
  outliers : List ℚ
  rng : ℚ × ℚ
  stats : SummaryStats
deriving DecidableEq, Repr

/-- Modelled from the spec: the core computation of `removeOutliers`
(`misc_computational_tools`, not part of this tree).  Discards non-finite
values; on an empty remainder returns degenerate defaults (empty partitions, a
zero-width sentinel range, NaN-sentinel statistics).  Otherwise, when removal
is requested, the clipping threshold `adj` is the componentwise minimum of
`mean ± stdbnd·std` and the two percentile bounds, the sample is partitioned
against `adj`, and `rng` is the widened span of the envelope of the raw
min/max and the active bound, so the axis never clips visible data; when
removal is not requested `adj` is the sentinel, nothing is flagged, and `rng`
is the widened raw min/max span. -/
def summarize (data : List NumVal) (stdbnd : ℚ) (pc : ℚ × ℚ) (rmv : Bool) :
    Summary :=
  let xs := finiteVals data
  if xs.isEmpty then
    { adj := none, corr_data := [], outliers := [], rng := (0, 0),
      stats := { mean := none, med := none, std := none } }
  else
    let m := mean xs
    let sd := stddev xs
    let st : SummaryStats :=
      { mean := some m, med := some (median xs), std := some sd }
    if rmv then
      let lo := min (m - stdbnd * sd) (percentile pc.1 xs)
      let hi := min (m + stdbnd * sd) (percentile pc.2 xs)
      { adj := some (lo, hi),
        corr_data := xs.filter (fun x => decide (lo ≤ x ∧ x ≤ hi)),
        outliers := xs.filter (fun x => !decide (lo ≤ x ∧ x ≤ hi)),
        rng := extendRange (min (listMin xs) lo) (max (listMax xs) hi),
        stats := st }
    else
      { adj := none, corr_data := xs, outliers := [],
        rng := extendRange (listMin xs) (listMax xs),
        stats := st }

/-- Modelled from the spec: `removeOutliers` with the fail-fast parameter
validation the spec prescribes — a percentile pair with low ≥ high or a
negative sigma-bound is rejected with a descriptive error before any Range is
produced; valid parameters always yield a `Summary`. -/
def removeOutliers (data : List NumVal) (stdbnd : ℚ) (pc : ℚ × ℚ)
    (rmv : Bool) : Except String Summary :=
  if pc.2 ≤ pc.1 then
    Except.error "percentile clip pair invalid: low bound must be below high bound"
  else if stdbnd < 0 then
    Except.error "sigma bound invalid: must be nonnegative"
  else
    Except.ok (summarize data stdbnd pc rmv)

/-- Ceiling square root on naturals, embedding `int(np.ceil(np.sqrt(n)))` in
`dashSubplot_from_figs` (exact for the machine-size lengths involved): the
least `m ≤ n` with `n ≤ m * m`. -/
def ceilSqrt (n : ℕ) : ℕ :=
  ((List.range (n + 1)).filter (fun m => decide (n ≤ m * m))).headD n

/-- Grid-placement state of the loop in `dashSubplot_from_figs`: the row and
column counters and the per-row lists of placed graphs. -/
structure GridState (α : Type) where
  i_r : ℕ
  i_c : ℕ
  d_plot : List (List α)
deriving Repr

/-- One iteration of the `for fig in figs` loop of `dashSubplot_from_figs`:
increment the column counter, wrap to the next row when it reaches `n_r`,
append the graph to row `i_r` (`none` embeds the IndexError Python raises when
`i_r` is outside `d_plot`), then increment and wrap once more. -/
def placeFig (n_r : ℕ) (st : GridState α) (fig : α) : Option (GridState α) :=
  let c1 := st.i_c + 1
  let rc1 : ℕ × ℕ := if n_r ≤ c1 then (st.i_r + 1, 0) else (st.i_r, c1)
  if rc1.1 < st.d_plot.length then
    let d := st.d_plot.set rc1.1 (st.d_plot.getD rc1.1 [] ++ [fig])
    let c2 := rc1.2 + 1
    let rc2 : ℕ × ℕ := if n_r ≤ c2 then (rc1.1 + 1, 0) else (rc1.1, c2)
    some ⟨rc2.1, rc2.2, d⟩
  else none

/-- Runs the placement loop over all figures, stopping with `none` as soon as
an iteration raises. -/
def placeAll (n_r : ℕ) : List α → GridState α → Option (GridState α)
  | [], st => some st
  | f :: fs, st =>
    match placeFig n_r st f with
    | some st2 => placeAll n_r fs st2
    | none => none

/-- Embedding of `dashSubplot_from_figs` (`dash_tools.py`): allocates
`ceil(sqrt(len(figs)))` rows and runs the placement loop; `none` means the
Python function raises an IndexError instead of returning a layout. -/
def dashSubplot_from_figs (figs : List α) : Option (List (List α)) :=
  let n_r := ceilSqrt figs.length
  match placeAll n_r figs ⟨0, 0, List.replicate n_r []⟩ with
  | some st => some st.d_plot
  | none => none

/-- Side effects of `startDashboard` (`dash_tools.py`), in order: pickling the
jsonified figures to a path, spawning a separate OS process running
`startDashboardSerial` on them, or calling `startDashboardSerial` in the
caller's process (which blocks the caller until the server stops). -/
inductive DashboardEffect (β : Type) where
  | dumpPkl (obj : β) (path : String)
  | spawnProcess (argFigs : β)
  | runInline (figs : β)
deriving DecidableEq, Repr

/-- Embedding of `startDashboard` (`dash_tools.py`): `jsonify` stands for the
conversion to a picklable dict form; the result is the ordered effect list
together with the Python return value — `some fd` stands for the started
`Process` object (carrying the figure argument it was given), `none` for
Python's `None`. -/
def startDashboard (jsonify : α → β) (figs : α) (parr : Bool)
    (save : Option String) : List (DashboardEffect β) × Option β :=
  let fd := jsonify figs
  let saveEffs : List (DashboardEffect β) :=
    match save with
    | some path => [DashboardEffect.dumpPkl fd path]
    | none => []
  if parr then (saveEffs ++ [DashboardEffect.spawnProcess fd], some fd)
  else (saveEffs ++ [DashboardEffect.runInline fd], none)

/-- Result of one `sp.stats.linregress` / `sp.stats.spearmanr` pair inside
`corrPlot`'s `addCorr` loop. -/
structure CorrStats where
  slope : ℚ
  intercept : ℚ
  R2 : ℚ
  p_val : ℚ
  R2sp : ℚ
  p_val_sp : ℚ
deriving Repr

/-- One iteration of `corrPlot`'s `addCorr` loop (`plotly_plot_tools.py`):
`stat n` stands for the statistical calls on data series `n`; on success the
annotation for series `n` is appended (and, when `addCorrLine` is set, its
correlation-line trace); on any exception the bare `except: pass` drops both
and the loop moves on. -/
def addCorrStep (stat : ℕ → Except String CorrStats) (addCorrLine : Bool)
    (acc : List ℕ × List ℕ) (n : ℕ) : List ℕ × List ℕ :=
  match stat n with
  | Except.ok _ => (acc.1 ++ [n], acc.2 ++ if addCorrLine then [n] else [])
  | Except.error _ => acc

/-- Embedding of the figure-assembly tail of `corrPlot` with `addCorr`: the
annotation indices and correlation-line trace indices accumulated over the `N`
series, wrapped in `Except` to record whether an exception escapes to the
caller (`Except.ok` means a figure is returned). -/
def corrPlot (stat : ℕ → Except String CorrStats) (N : ℕ)
    (addCorr addCorrLine : Bool) : Except String (List ℕ × List ℕ) :=
  if addCorr then
    Except.ok ((List.range N).foldl (addCorrStep stat addCorrLine) ([], []))
  else Except.ok ([], [])

/-! ### Helper lemmas -/

/-- A series whose statistical calls fail contributes nothing in one step of
the addCorr loop. -/
theorem addCorrStep_not_mem (stat : ℕ → Except String CorrStats)
    (addCorrLine : Bool) (acc : List ℕ × List ℕ) (x n : ℕ) (e : String)
    (he : stat n = Except.error e) :
    (n ∈ (addCorrStep stat addCorrLine acc x).1 → n ∈ acc.1) ∧
    (n ∈ (addCorrStep stat addCorrLine acc x).2 → n ∈ acc.2) := by
  unfold addCorrStep
  cases hx : stat x with
  | ok r =>
    constructor
    · intro hm
      rcases List.mem_append.mp hm with h1 | h1
      · exact h1
      · exfalso
        have : n = x := by simpa using h1
        rw [this, hx] at he
        exact Except.noConfusion he
    · intro hm
      rcases List.mem_append.mp hm with h1 | h1
      · exact h1
      · exfalso
        cases addCorrLine with
        | true =>
          have : n = x := by simpa using h1
          rw [this, hx] at he
          exact Except.noConfusion he
        | false => simp at h1
  | error s => exact ⟨id, id⟩

/-- A series whose statistical calls fail contributes nothing across the whole
addCorr fold. -/
theorem addCorr_foldl_not_mem (stat : ℕ → Except String CorrStats)
    (addCorrLine : Bool) (l : List ℕ) (acc : List ℕ × List ℕ) (n : ℕ)
    (e : String) (he : stat n = Except.error e) :
    (n ∈ (l.foldl (addCorrStep stat addCorrLine) acc).1 → n ∈ acc.1) ∧
    (n ∈ (l.foldl (addCorrStep stat addCorrLine) acc).2 → n ∈ acc.2) := by
  induction l generalizing acc with
  | nil => exact ⟨id, id⟩
  | cons x xs ih =>
    simp only [List.foldl_cons]
    have hstep := addCorrStep_not_mem stat addCorrLine acc x n e he
    have htail := ih (addCorrStep stat addCorrLine acc x)
    exact ⟨fun hm => hstep.1 (htail.1 hm), fun hm => hstep.2 (htail.2 hm)⟩

/-- Folding `min` over a list never exceeds the initial value. -/
theorem foldl_min_le_init (x : ℚ) (l : List ℚ) : l.foldl min x ≤ x := by
  induction l generalizing x with
  | nil => exact le_refl x
  | cons a t ih => exact le_trans (ih (min x a)) (min_le_left x a)

/-- Folding `max` over a list never drops below the initial value. -/
theorem init_le_foldl_max (x : ℚ) (l : List ℚ) : x ≤ l.foldl max x := by
  induction l generalizing x with
  | nil => exact le_refl x
  | cons a t ih => exact le_trans (le_max_left x a) (ih (max x a))

/-- On a non-empty list the minimum is at most the maximum. -/
theorem listMin_le_listMax (xs : List ℚ) (h : xs ≠ []) :
    listMin xs ≤ listMax xs := by
  cases xs with
  | nil => exact absurd rfl h
  | cons x t => exact le_trans (foldl_min_le_init x t) (init_le_foldl_max x t)

/-- Widening keeps the endpoints ordered. -/
theorem extendRange_le (lo hi : ℚ) (h : lo ≤ hi) :
    (extendRange lo hi).1 ≤ (extendRange lo hi).2 := by
  unfold extendRange
  dsimp only
  linarith

/-- Widening a larger interval covers the widening of a smaller one. -/
theorem extendRange_mono (a b lo hi : ℚ) (ha : a ≤ lo) (hb : hi ≤ b) :
    (extendRange a b).1 ≤ (extendRange lo hi).1 ∧
    (extendRange lo hi).2 ≤ (extendRange a b).2 := by
  unfold extendRange
  dsimp only
  constructor <;> linarith

/-- Widening a zero-width interval is the identity. -/
theorem extendRange_self (v : ℚ) : extendRange v v = (v, v) := by
  simp [extendRange]

/-- A filter and its complementary filter partition a list. -/
theorem filter_partition (p : ℚ → Bool) (l : List ℚ) (x : ℚ) :
    ((x ∈ l.filter p ∨ x ∈ l.filter (fun y => !p y)) ↔ x ∈ l) ∧
    ¬(x ∈ l.filter p ∧ x ∈ l.filter (fun y => !p y)) := by
  constructor
  · constructor
    · rintro (hm | hm) <;> exact (List.mem_filter.mp hm).1
    · intro hm
      by_cases hp : p x
      · exact Or.inl (List.mem_filter.mpr ⟨hm, hp⟩)
      · exact Or.inr (List.mem_filter.mpr ⟨hm, by simp [hp]⟩)
  · rintro ⟨h1, h2⟩
    have hp1 := (List.mem_filter.mp h1).2
    have hp2 := (List.mem_filter.mp h2).2
    simp [hp1] at hp2

/-- Inversion: a successful summarizer call requires valid parameters and
yields exactly the summary of the core computation. -/
theorem removeOutliers_ok (d : List NumVal) (b : ℚ) (pc : ℚ × ℚ) (rmv : Bool)
    (s : Summary) (h : removeOutliers d b pc rmv = Except.ok s) :
    s = summarize d b pc rmv := by
  unfold removeOutliers at h
  split at h
  · exact absurd h (by simp)
  · split at h
    · exact absurd h (by simp)
    · have hs := h
      simp only [Except.ok.injEq] at hs
      exact hs.symm

/-! ### Claims -/

/-- C8: in `corrPlot` with `addCorr = True`, whenever the statistical calls on
a data series raise, the bare `except: pass` swallows the exception: the call
still returns a figure (`Except.ok`), and that series' correlation annotation
and correlation line are silently omitted from it. -/
theorem corrPlot_swallows_stat_errors (stat : ℕ → Except String CorrStats)
    (N : ℕ) (addCorrLine : Bool) (n : ℕ) (e : String)
    (he : stat n = Except.error e) :
    ∃ fig, corrPlot stat N true addCorrLine = Except.ok fig ∧
      n ∉ fig.1 ∧ n ∉ fig.2 := by
  refine ⟨(List.range N).foldl (addCorrStep stat addCorrLine) ([], []), rfl, ?_, ?_⟩
  · intro hm
    exact absurd ((addCorr_foldl_not_mem stat addCorrLine (List.range N)
      ([], []) n e he).1 hm) (List.not_mem_nil n)
  · intro hm
    exact absurd ((addCorr_foldl_not_mem stat addCorrLine (List.range N)
      ([], []) n e he).2 hm) (List.not_mem_nil n)

/-- C8 witness: with statistical calls that always fail, `corrPlot` over two
series still returns a figure and series 0 gets no annotation and no line. -/
theorem corrPlot_swallows_stat_errors_witness :
    ∃ fig, corrPlot (fun _ => Except.error "stat failure") 2 true true = Except.ok fig ∧
      0 ∉ fig.1 ∧ 0 ∉ fig.2 :=
  corrPlot_swallows_stat_errors (fun _ => Except.error "stat failure") 2 true 0
    "stat failure" rfl

/-- C9 counterexample: at `figs = ()`, `parr = true`, `save = none` (with the
identity as `jsonify`), the claim "separate process, caller not blocked, and
no result returned to the caller" is false: `startDashboard` returns the
started `Process` object, not `None`. -/
theorem startDashboard_parr_claim_false :
    ¬ (DashboardEffect.spawnProcess ((fun u : Unit => u) ())
          ∈ (startDashboard (fun u : Unit => u) () true none).1 ∧
       (∀ b, DashboardEffect.runInline b ∉ (startDashboard (fun u : Unit => u) () true none).1) ∧
       (startDashboard (fun u : Unit => u) () true none).2 = none) := by
  intro h
  have h3 := h.2.2
  simp [startDashboard] at h3

/-- C9 (amended): with `parr = true`, `startDashboard` spawns the UI server in
a separate OS process and never runs the blocking in-process server, so the
caller is not blocked; the call returns the spawned `Process` handle to the
caller (rather than returning no result). -/
theorem startDashboard_parr_spawns (jsonify : α → β) (figs : α)
    (save : Option String) :
    DashboardEffect.spawnProcess (jsonify figs)
        ∈ (startDashboard jsonify figs true save).1 ∧
    (∀ b, DashboardEffect.runInline b ∉ (startDashboard jsonify figs true save).1) ∧
    (startDashboard jsonify figs true save).2 = some (jsonify figs) := by
  cases save <;> simp [startDashboard]

set_option maxHeartbeats 1600000 in
/-- C10: for every list of figures of length 1, 3, 4 or 5,
`dashSubplot_from_figs` hits an IndexError (modelled as `none`) instead of
producing a layout: the placement loop increments the column counter twice per
figure, so the row index reaches the number of allocated rows
`ceil(sqrt(len(figs)))` and the row access goes out of bounds. -/
theorem dashSubplot_from_figs_index_error (figs : List α)
    (h : figs.length = 1 ∨ figs.length = 3 ∨ figs.length = 4 ∨ figs.length = 5) :
    dashSubplot_from_figs figs = none := by
  rcases figs with _ | ⟨a, _ | ⟨b, _ | ⟨c, _ | ⟨d, _ | ⟨e, _ | ⟨f, t⟩⟩⟩⟩⟩⟩
  · simp at h
  · rfl
  · simp at h
  · rfl
  · rfl
  · rfl
  · simp [List.length_cons] at h

/-- C10 witness: a single-figure list already fails. -/
theorem dashSubplot_from_figs_index_error_witness :
    dashSubplot_from_figs ([0] : List ℕ) = none :=
  dashSubplot_from_figs_index_error [0] (Or.inl rfl)

/-- C1: for every sample, a successful summarizer call partitions the
finite-valued subset: every finite value lands in `corr_data` or `outliers`,
and none lands in both. -/
theorem removeOutliers_partition (d : List NumVal) (b : ℚ) (pc : ℚ × ℚ)
    (rmv : Bool) (s : Summary) (h : removeOutliers d b pc rmv = Except.ok s) :
    (∀ x : ℚ, (x ∈ s.corr_data ∨ x ∈ s.outliers) ↔ x ∈ finiteVals d) ∧
    (∀ x : ℚ, ¬(x ∈ s.corr_data ∧ x ∈ s.outliers)) := by
  have hs := removeOutliers_ok d b pc rmv s h
  subst hs
  by_cases he : (finiteVals d).isEmpty
  · have hnil : finiteVals d = [] := by simpa [List.isEmpty_iff] using he
    simp [summarize, he, hnil]
  · cases rmv with
    | false =>
      constructor
      · intro x
        simp [summarize, he]
      · intro x
        simp [summarize, he]
    | true =>
      constructor
      · intro x
        have hp := (filter_partition
          (fun y => decide ((min (mean (finiteVals d) - b * stddev (finiteVals d))
              (percentile pc.1 (finiteVals d))) ≤ y ∧
            y ≤ (min (mean (finiteVals d) + b * stddev (finiteVals d))
              (percentile pc.2 (finiteVals d))))) (finiteVals d) x).1
        simpa [summarize, he] using hp
      · intro x
        have hp := (filter_partition
          (fun y => decide ((min (mean (finiteVals d) - b * stddev (finiteVals d))
              (percentile pc.1 (finiteVals d))) ≤ y ∧
            y ≤ (min (mean (finiteVals d) + b * stddev (finiteVals d))
              (percentile pc.2 (finiteVals d))))) (finiteVals d) x).2
        simpa [summarize, he] using hp

/-- C1 witness: the partition property at a concrete mixed sample. -/
theorem removeOutliers_partition_witness :
    (∀ x : ℚ, (x ∈ (summarize [NumVal.fin 1, NumVal.nan] 6 (5, 95) true).corr_data ∨
        x ∈ (summarize [NumVal.fin 1, NumVal.nan] 6 (5, 95) true).outliers) ↔
      x ∈ finiteVals [NumVal.fin 1, NumVal.nan]) ∧
    (∀ x : ℚ, ¬(x ∈ (summarize [NumVal.fin 1, NumVal.nan] 6 (5, 95) true).corr_data ∧
        x ∈ (summarize [NumVal.fin 1, NumVal.nan] 6 (5, 95) true).outliers)) :=
  removeOutliers_partition [NumVal.fin 1, NumVal.nan] 6 (5, 95) true
    (summarize [NumVal.fin 1, NumVal.nan] 6 (5, 95) true) rfl

/-- C4: with the remove-outliers flag off, nothing is flagged: `outliers` is
empty and `corr_data` is exactly the finite-valued subset of the sample. -/
theorem removeOutliers_no_removal (d : List NumVal) (b : ℚ) (pc : ℚ × ℚ)
    (s : Summary) (h : removeOutliers d b pc false = Except.ok s) :
    s.outliers = [] ∧ s.corr_data = finiteVals d := by
  have hs := removeOutliers_ok d b pc false s h
  subst hs
  by_cases he : (finiteVals d).isEmpty
  · have hnil : finiteVals d = [] := by simpa [List.isEmpty_iff] using he
    simp [summarize, he, hnil]
  · simp [summarize, he]

/-- C4 witness: at a concrete sample with `rmv = false`. -/
theorem removeOutliers_no_removal_witness :
    (summarize [NumVal.fin 2, NumVal.fin 7] 6 (5, 95) false).outliers = [] ∧
    (summarize [NumVal.fin 2, NumVal.fin 7] 6 (5, 95) false).corr_data =
      finiteVals [NumVal.fin 2, NumVal.fin 7] :=
  removeOutliers_no_removal [NumVal.fin 2, NumVal.fin 7] 6 (5, 95)
    (summarize [NumVal.fin 2, NumVal.fin 7] 6 (5, 95) false) rfl

/-- C5: the returned range is always ordered, `rng.1 ≤ rng.2`, including for
empty and single-element samples. -/
theorem removeOutliers_rng_ordered (d : List NumVal) (b : ℚ) (pc : ℚ × ℚ)
    (rmv : Bool) (s : Summary) (h : removeOutliers d b pc rmv = Except.ok s) :
    s.rng.1 ≤ s.rng.2 := by
  have hs := removeOutliers_ok d b pc rmv s h
  subst hs
  by_cases he : (finiteVals d).isEmpty
  · simp [summarize, he]
  · have hne : finiteVals d ≠ [] := by simpa [List.isEmpty_iff] using he
    have hmm := listMin_le_listMax (finiteVals d) hne
    cases rmv with
    | false => simpa [summarize, he] using extendRange_le _ _ hmm
    | true =>
      have hle : min (listMin (finiteVals d))
            (min (mean (finiteVals d) - b * stddev (finiteVals d))
              (percentile pc.1 (finiteVals d))) ≤
          max (listMax (finiteVals d))
            (min (mean (finiteVals d) + b * stddev (finiteVals d))
              (percentile pc.2 (finiteVals d))) :=
        le_trans (le_trans (min_le_left _ _) hmm) (le_max_left _ _)
      simpa [summarize, he] using extendRange_le _ _ hle

/-- C5 witness: at a concrete single-element sample. -/
theorem removeOutliers_rng_ordered_witness :
    (summarize [NumVal.fin 3] 6 (5, 95) true).rng.1 ≤
    (summarize [NumVal.fin 3] 6 (5, 95) true).rng.2 :=
  removeOutliers_rng_ordered [NumVal.fin 3] 6 (5, 95) true
    (summarize [NumVal.fin 3] 6 (5, 95) true) rfl

/-- C3: for a sample with at least one finite value, the returned range spans
at least the widened interval derived from the raw min and max, whatever the
remove-outliers flag, so axis limits computed from it never clip data. -/
theorem removeOutliers_rng_spans (d : List NumVal) (b : ℚ) (pc : ℚ × ℚ)
    (rmv : Bool) (s : Summary) (h : removeOutliers d b pc rmv = Except.ok s)
    (hne : finiteVals d ≠ []) :
    s.rng.1 ≤ (extendRange (listMin (finiteVals d)) (listMax (finiteVals d))).1 ∧
    (extendRange (listMin (finiteVals d)) (listMax (finiteVals d))).2 ≤ s.rng.2 := by
  have hs := removeOutliers_ok d b pc rmv s h
  subst hs
  have he : (finiteVals d).isEmpty = false := by
    cases hh : (finiteVals d).isEmpty
    · rfl
    · exact absurd (by simpa [List.isEmpty_iff] using hh) hne
  cases rmv with
  | false => simp [summarize, he]
  | true =>
    have hm := extendRange_mono
      (min (listMin (finiteVals d))
        (min (mean (finiteVals d) - b * stddev (finiteVals d))
          (percentile pc.1 (finiteVals d))))
      (max (listMax (finiteVals d))
        (min (mean (finiteVals d) + b * stddev (finiteVals d))
          (percentile pc.2 (finiteVals d))))
      (listMin (finiteVals d)) (listMax (finiteVals d))
      (min_le_left _ _) (le_max_left _ _)
    simpa [summarize, he] using hm

/-- C3 witness: at a concrete two-element sample with removal requested. -/
theorem removeOutliers_rng_spans_witness :
    (summarize [NumVal.fin 1, NumVal.fin 9] 6 (5, 95) true).rng.1 ≤
      (extendRange (listMin (finiteVals [NumVal.fin 1, NumVal.fin 9]))
        (listMax (finiteVals [NumVal.fin 1, NumVal.fin 9]))).1 ∧
    (extendRange (listMin (finiteVals [NumVal.fin 1, NumVal.fin 9]))
        (listMax (finiteVals [NumVal.fin 1, NumVal.fin 9]))).2 ≤
      (summarize [NumVal.fin 1, NumVal.fin 9] 6 (5, 95) true).rng.2 :=
  removeOutliers_rng_spans [NumVal.fin 1, NumVal.fin 9] 6 (5, 95) true
    (summarize [NumVal.fin 1, NumVal.fin 9] 6 (5, 95) true) rfl (by simp [finiteVals])

/-- C2: with valid parameters the summarizer never raises, for any sample —
including empty or all-non-finite ones, which yield the degenerate defaults
(empty partitions, the zero-width sentinel range, the NaN-sentinel mean). -/
theorem removeOutliers_never_raises (d : List NumVal) (b : ℚ) (pc : ℚ × ℚ)
    (rmv : Bool) (h1 : pc.1 < pc.2) (h2 : 0 ≤ b) :
    removeOutliers d b pc rmv = Except.ok (summarize d b pc rmv) ∧
    (finiteVals d = [] →
      (summarize d b pc rmv).corr_data = [] ∧
      (summarize d b pc rmv).outliers = [] ∧
      (summarize d b pc rmv).rng = (0, 0) ∧
      (summarize d b pc rmv).stats.mean = none) := by
  constructor
  · unfold removeOutliers
    rw [if_neg (not_le.mpr h1), if_neg (not_lt.mpr h2)]
  · intro hemp
    simp [summarize, hemp]

/-- C2 witness: an all-non-finite sample degrades to the defaults. -/
theorem removeOutliers_never_raises_witness :
    removeOutliers [NumVal.nan, NumVal.posInf, NumVal.negInf] 6 (5, 95) true =
      Except.ok (summarize [NumVal.nan, NumVal.posInf, NumVal.negInf] 6 (5, 95) true) ∧
    (finiteVals [NumVal.nan, NumVal.posInf, NumVal.negInf] = [] →
      (summarize [NumVal.nan, NumVal.posInf, NumVal.negInf] 6 (5, 95) true).corr_data = [] ∧
      (summarize [NumVal.nan, NumVal.posInf, NumVal.negInf] 6 (5, 95) true).outliers = [] ∧
      (summarize [NumVal.nan, NumVal.posInf, NumVal.negInf] 6 (5, 95) true).rng = (0, 0) ∧
      (summarize [NumVal.nan, NumVal.posInf, NumVal.negInf] 6 (5, 95) true).stats.mean = none) :=
  removeOutliers_never_raises [NumVal.nan, NumVal.posInf, NumVal.negInf] 6 (5, 95) true
    (by decide) (by decide)

/-- C7: an invalid parameter combination — percentile low bound at or above
the high bound, or a negative sigma bound — makes the summarizer fail fast
with a descriptive validation error instead of returning a Range. -/
theorem removeOutliers_invalid_params (d : List NumVal) (b : ℚ) (pc : ℚ × ℚ)
    (rmv : Bool) (h : pc.2 ≤ pc.1 ∨ b < 0) :
    ∃ msg, removeOutliers d b pc rmv = Except.error msg := by
  unfold removeOutliers
  by_cases h1 : pc.2 ≤ pc.1
  · exact ⟨_, by rw [if_pos h1]⟩
  · rcases h with h | h
    · exact absurd h h1
    · exact ⟨_, by rw [if_neg h1, if_pos h]⟩

/-- C7 witness: an inverted percentile pair is rejected. -/
theorem removeOutliers_invalid_params_witness :
    ∃ msg, removeOutliers [NumVal.fin 1] 6 (95, 5) true = Except.error msg :=
  removeOutliers_invalid_params [NumVal.fin 1] 6 (95, 5) true (Or.inl (by decide))

/-- Dropping non-finite values from a constant finite sample keeps it whole. -/
theorem finiteVals_replicate (n : ℕ) (v : ℚ) :
    finiteVals (List.replicate n (NumVal.fin v)) = List.replicate n v := by
  induction n with
  | zero => rfl
  | succ m ih =>
    simp only [List.replicate_succ, finiteVals, List.filterMap_cons] at ih ⊢
    simp [ih]

/-- Mean of a constant sample is the constant. -/
theorem mean_replicate (n : ℕ) (v : ℚ) (h : 1 ≤ n) :
    mean (List.replicate n v) = v := by
  have hn : ((n : ℚ)) ≠ 0 := Nat.cast_ne_zero.mpr (by omega)
  rw [mean, List.sum_replicate, nsmul_eq_mul, List.length_replicate]
  exact mul_div_cancel_left₀ v hn

/-- Variance of a constant sample is zero. -/
theorem variance_replicate (n : ℕ) (v : ℚ) (h : 1 ≤ n) :
    variance (List.replicate n v) = 0 := by
  simp [variance, mean_replicate n v h, List.map_replicate, List.sum_replicate]

/-- Standard deviation of a constant sample is zero: the zero variance lands
in the zero branch of the square root, with no division-by-zero anywhere. -/
theorem stddev_replicate (n : ℕ) (v : ℚ) (h : 1 ≤ n) :
    stddev (List.replicate n v) = 0 := by
  simp [stddev, variance_replicate n v h, ratSqrt]

/-- Sorting a constant sample is the identity. -/
theorem sortQ_replicate (n : ℕ) (v : ℚ) :
    sortQ (List.replicate n v) = List.replicate n v := by
  have hp : (sortQ (List.replicate n v)).Perm (List.replicate n v) :=
    List.perm_insertionSort _ _
  have hlen : (sortQ (List.replicate n v)).length = n := by
    rw [hp.length_eq, List.length_replicate]
  have hall : ∀ b ∈ sortQ (List.replicate n v), b = v := fun b hb =>
    List.eq_of_mem_replicate (hp.mem_iff.mp hb)
  have h2 : sortQ (List.replicate n v) =
      List.replicate (sortQ (List.replicate n v)).length v :=
    List.eq_replicate_length.mpr hall
  rw [h2, hlen]

/-- Reading inside a constant list gives the constant. -/
theorem getD_replicate_self (n i : ℕ) (v d : ℚ) (h : i < n) :
    (List.replicate n v).getD i d = v := by
  induction n generalizing i with
  | zero => omega
  | succ m ih =>
    cases i with
    | zero => simp [List.replicate_succ]
    | succ j =>
      simpa [List.replicate_succ] using ih j (by omega)

/-- Median of a constant sample is the constant. -/
theorem median_replicate (n : ℕ) (v : ℚ) (h : 1 ≤ n) :
    median (List.replicate n v) = v := by
  simp only [median, sortQ_replicate, List.length_replicate]
  split
  · exact getD_replicate_self _ _ _ _ (by omega)
  · rw [getD_replicate_self _ _ _ _ (by omega), getD_replicate_self _ _ _ _ (by omega)]
    ring

/-- Every percentile of a constant sample is the constant. -/
theorem percentile_replicate (p : ℚ) (n : ℕ) (v : ℚ) (h : 1 ≤ n) :
    percentile p (List.replicate n v) = v := by
  simp only [percentile, sortQ_replicate, List.length_replicate]
  split
  · rw [getD_replicate_self _ _ _ _ (by omega), getD_replicate_self _ _ _ _ (by omega)]
    ring
  · exact getD_replicate_self _ _ _ _ (by omega)

/-- Folding `min` from the constant over a constant list stays put. -/
theorem foldl_min_replicate (m : ℕ) (v : ℚ) :
    (List.replicate m v).foldl min v = v := by
  induction m with
  | zero => rfl
  | succ k ih => simpa [List.replicate_succ, List.foldl_cons, min_self] using ih

/-- Folding `max` from the constant over a constant list stays put. -/
theorem foldl_max_replicate (m : ℕ) (v : ℚ) :
    (List.replicate m v).foldl max v = v := by
  induction m with
  | zero => rfl
  | succ k ih => simpa [List.replicate_succ, List.foldl_cons, max_self] using ih

/-- Minimum of a non-empty constant sample is the constant. -/
theorem listMin_replicate (n : ℕ) (v : ℚ) (h : 1 ≤ n) :
    listMin (List.replicate n v) = v := by
  cases n with
  | zero => omega
  | succ m => simp [List.replicate_succ, listMin, foldl_min_replicate]

/-- Maximum of a non-empty constant sample is the constant. -/
theorem listMax_replicate (n : ℕ) (v : ℚ) (h : 1 ≤ n) :
    listMax (List.replicate n v) = v := by
  cases n with
  | zero => omega
  | succ m => simp [List.replicate_succ, listMax, foldl_max_replicate]

/-- A filter whose predicate holds at the constant keeps a constant list. -/
theorem filter_replicate_of_pos (n : ℕ) (v : ℚ) (p : ℚ → Bool) (hp : p v = true) :
    (List.replicate n v).filter p = List.replicate n v := by
  induction n with
  | zero => rfl
  | succ m ih => simp [List.replicate_succ, List.filter_cons, hp, ih]

/-- A filter whose predicate fails at the constant empties a constant list. -/
theorem filter_replicate_of_neg (n : ℕ) (v : ℚ) (p : ℚ → Bool) (hp : p v = false) :
    (List.replicate n v).filter p = [] := by
  induction n with
  | zero => rfl
  | succ m ih => simp [List.replicate_succ, List.filter_cons, hp, ih]

/-- C6: on a sample of `n ≥ 1` identical finite values `v` (zero variance)
the summarizer returns mean `v`, median `v`, standard deviation `0`, no
outliers, `corr_data` the whole sample, and the well-defined degenerate range
`(v, v)` fixed by the percentile bound, with no error raised. -/
theorem removeOutliers_const (n : ℕ) (v : ℚ) (rmv : Bool) (hn : 1 ≤ n) :
    removeOutliers (List.replicate n (NumVal.fin v)) 6 (5, 95) rmv =
      Except.ok
        { adj := if rmv then some (v, v) else none,
          corr_data := List.replicate n v,
          outliers := [],
          rng := (v, v),
          stats := { mean := some v, med := some v, std := some 0 } } := by
  have hfin := finiteVals_replicate n v
  have hne : (List.replicate n v).isEmpty = false := by
    cases n with
    | zero => omega
    | succ m => simp [List.replicate_succ]
  unfold removeOutliers
  rw [if_neg (by norm_num), if_neg (by norm_num)]
  congr 1
  simp only [summarize, hfin, hne, Bool.false_eq_true, if_false,
    mean_replicate n v hn, stddev_replicate n v hn, median_replicate n v hn,
    percentile_replicate 5 n v hn, percentile_replicate 95 n v hn,
    listMin_replicate n v hn, listMax_replicate n v hn]
  cases rmv with
  | false =>
    simp [extendRange_self]
  | true =>
    have hlo : min (v - 6 * 0) v = v := by norm_num
    have hhi : min (v + 6 * 0) v = v := by norm_num
    simp only [if_true, hlo, hhi]
    rw [filter_replicate_of_pos n v _ (by simp),
      filter_replicate_of_neg n v _ (by simp),
      min_self, max_self, extendRange_self]

/-- C6 witness: the spec's example sample `[10, 10, 10, 10]`. -/
theorem removeOutliers_const_witness :
    removeOutliers (List.replicate 4 (NumVal.fin 10)) 6 (5, 95) true =
      Except.ok
        { adj := some (10, 10),
          corr_data := List.replicate 4 (10 : ℚ),
          outliers := [],
          rng := (10, 10),
          stats := { mean := some 10, med := some 10, std := some 0 } } :=
  removeOutliers_const 4 10 true (by decide)
